import Mathlib

/-!
Verification of the BeamAlignment scan-analysis pipeline.

The definitions below are a shallow embedding of the repository's Python
sources (`scan_analysis.py`, `get_voltage_array.py`).  Real-valued numpy
arithmetic is embedded over `ℝ` where the transcendental `np.exp` is
involved (the `model` function) and over `ℚ` everywhere else, so that the
embedded functions stay executable.  Fallible numpy operations
(`np.mean` of an empty array evaluates to NaN) are embedded as `Option`.
-/

namespace BeamAlignment

/-- Shallow embedding of `model` from `src/scan_analysis.py`.

```
Amp = alpha*X+a
sigma = beta*X+b
D = delta*X+d
Amp[Amp<0]=0
fit = const - np.abs(Amp*np.exp(-(Y-d)**2/(2*sigma**2)))
```

The intermediate `D` is computed by the source and never used, exactly as
here.  `np.abs`/`np.exp` are embedded as `abs`/`Real.exp`. -/
noncomputable def model (alpha a beta b delta d const X Y : ℝ) : ℝ :=
  let Amp := alpha * X + a
  let sigma := beta * X + b
  let D := delta * X + d
  let Amp2 := if Amp < 0 then 0 else Amp
  const - |Amp2 * Real.exp (-(Y - d) ^ 2 / (2 * sigma ^ 2))|

/-- The model as the specification writes it:
`f = const - |max(0, alpha*Vx + a) * exp(-(Vy - d)^2 / (2*(beta*Vx + b)^2))|`,
a Gaussian dip centered at the fixed parameter `d`. -/
noncomputable def modelSpec (alpha a beta b delta d const X Y : ℝ) : ℝ :=
  const - |max 0 (alpha * X + a) * Real.exp (-(Y - d) ^ 2 / (2 * (beta * X + b) ^ 2))|

/-- The hypothetical variant the specification warns about: the same model
but with the Gaussian centered at the moving center `D(Vx) = delta*Vx + d`
instead of the fixed parameter `d`.  The source does NOT compute this;
it exists only to state that `model` differs from it. -/
noncomputable def modelCenteredAtD (alpha a beta b delta d const X Y : ℝ) : ℝ :=
  let Amp := alpha * X + a
  let sigma := beta * X + b
  let D := delta * X + d
  let Amp2 := if Amp < 0 then 0 else Amp
  const - |Amp2 * Real.exp (-(Y - D) ^ 2 / (2 * sigma ^ 2))|

/-- Embedding of `np.round(x, 2)`'s inner rounding: numpy rounds halves to
the nearest even integer (banker's rounding). -/
def roundHalfEven (x : ℚ) : ℤ :=
  if x - ⌊x⌋ < 1/2 then ⌊x⌋
  else if 1/2 < x - ⌊x⌋ then ⌊x⌋ + 1
  else if ⌊x⌋ % 2 = 0 then ⌊x⌋ else ⌊x⌋ + 1

/-- Embedding of `np.round(x, 2)`: round to 2 decimal digits. -/
def npRound2 (x : ℚ) : ℚ := (roundHalfEven (x * 100) : ℚ) / 100

/-- Embedding of `np.mean` on a 1-D array.  `np.mean` of an empty float
array evaluates to NaN (with a runtime warning); the NaN outcome is
embedded as `none`. -/
def npMean (l : List ℚ) : Option ℚ :=
  match l with
  | [] => none
  | _ => some (l.sum / l.length)

/-- Embedding of `np.linspace(a, b, n)`: `n` evenly spaced points from `a`
to `b`, both endpoints included (for `n ≥ 2`). -/
def npLinspace (a b : ℚ) (n : ℕ) : List ℚ :=
  (List.range n).map (fun (i : ℕ) => a + (i : ℚ) * ((b - a) / ((n - 1 : ℕ) : ℚ)))

/-- Insert an element into a list sorted by the key `key`, before the first
element whose key is not smaller.  Building block of the stable sort used
to embed `np.argsort`. -/
def ordInsert {α : Type} (key : α → ℕ) (x : α) : List α → List α
  | [] => [x]
  | y :: l => if key x ≤ key y then x :: y :: l else y :: ordInsert key x l

/-- Stable insertion sort by the key `key` (ties keep their original
relative order). -/
def sortByKey {α : Type} (key : α → ℕ) : List α → List α
  | [] => []
  | x :: l => ordInsert key x (sortByKey key l)

/-- Embedding of `np.argsort` on a 1-D integer array: the list of indices
that sorts the array ascending.  numpy's default `quicksort` kind leaves
the order of equal elements unspecified; the embedding fixes the stable
order (equal values listed by ascending index), which is the order
numpy's `stable` kind produces. -/
def npArgsort (l : List ℕ) : List ℕ :=
  sortByKey (fun i => l.getD i 0) (List.range l.length)

/-- Grid resolution from `fit_scan_data` in `src/scan_analysis.py`:
`n = 10*int(np.sqrt(len(Vx_out)))`.  `int(...)` truncates, so this is
`10·⌊√sample_count⌋` (for realistic sample counts the float `np.sqrt` is
exact enough that truncation agrees with the integer square root). -/
def fitGridSize (sampleCount : ℕ) : ℕ := 10 * Nat.sqrt sampleCount

/-- The Vx axis of the evaluation grid: `xg = np.linspace(Vx_min, Vx_max+1, n)`. -/
def fitGridXs (sampleCount : ℕ) (Vxmin Vxmax : ℚ) : List ℚ :=
  npLinspace Vxmin (Vxmax + 1) (fitGridSize sampleCount)

/-- The Vy axis of the evaluation grid: `yg = np.linspace(Vy_min, Vy_max+1, n)`. -/
def fitGridYs (sampleCount : ℕ) (Vymin Vymax : ℚ) : List ℚ :=
  npLinspace Vymin (Vymax + 1) (fitGridSize sampleCount)

/-- The ceiling square root `⌈√k⌉` that the specification's formula
`n = 10·⌈√(sample_count)⌉` calls for (claim-side definition, used only to
compare against what the code computes). -/
def specCeilSqrt (k : ℕ) : ℕ :=
  if Nat.sqrt k * Nat.sqrt k = k then Nat.sqrt k else Nat.sqrt k + 1

/-- A list of `n` coordinates evenly spaced from `lo` to `hi`, inclusive at
both endpoints, with uniform spacing: the property the specification
requires of each grid axis. -/
def EvenMesh (lo hi : ℚ) (n : ℕ) (xs : List ℚ) : Prop :=
  xs.length = n
  ∧ xs.head? = some lo
  ∧ xs.getLast? = some hi
  ∧ ∀ i, xs[i]? = if i < n then some (lo + i * ((hi - lo) / ((n - 1 : ℕ) : ℚ))) else none

/-- Number of rows of a grid, `fit.shape[0]`. -/
def gridHeight (g : List (List ℚ)) : ℕ := g.length

/-- Number of columns of a grid, `fit.shape[1]`. -/
def gridWidth (g : List (List ℚ)) : ℕ := (g.headD []).length

/-- The thresholded binary mask built by `find_alignment_voltages`
(`src/scan_analysis.py`): with `H = 0.05`, `bottom = const - H*const` and
`top = const - (H-0.01)*const`, every cell of `fit` whose value lies in
`[bottom, top]` is set to 1 in `keypoints_grid`, every other cell stays 0. -/
def keypointsGrid (const : ℚ) (fit : List (List ℚ)) : List (List ℚ) :=
  fit.map (List.map fun el =>
    if const - (1/20) * const ≤ el ∧ el ≤ const - (1/20 - 1/100) * const then (1 : ℚ) else 0)

/-- Value of cell `(i, j)` of a grid with constant 0 padding outside the
grid, as `scipy.ndimage.maximum_filter(..., mode='constant', cval=0.0)`
sees it. -/
def cellPad (g : List (List ℚ)) (i j : ℤ) : ℚ :=
  if 0 ≤ i ∧ 0 ≤ j then (g.getD i.toNat []).getD j.toNat 0 else 0

/-- Maximum of the 3x3 neighborhood of cell `(i, j)` (the
`maximum_filter` footprint for `min_distance = 1`), 0-padded at the
border. -/
def neighborhood3Max (g : List (List ℚ)) (i j : ℕ) : ℚ :=
  [cellPad g ((i:ℤ) - 1) ((j:ℤ) - 1), cellPad g ((i:ℤ) - 1) (j:ℤ),
      cellPad g ((i:ℤ) - 1) ((j:ℤ) + 1),
    cellPad g (i:ℤ) ((j:ℤ) - 1), cellPad g (i:ℤ) ((j:ℤ) + 1),
    cellPad g ((i:ℤ) + 1) ((j:ℤ) - 1), cellPad g ((i:ℤ) + 1) (j:ℤ),
      cellPad g ((i:ℤ) + 1) ((j:ℤ) + 1)].foldr max (cellPad g (i:ℤ) (j:ℤ))

/-- Minimum value of the grid (`image.min()`), the default peak threshold
of `skimage.feature.peak_local_max`.  numpy errors on an empty array; the
embedding returns 0 there (no claim evaluates it on an empty grid). -/
def gridMin (g : List (List ℚ)) : ℚ :=
  match g.flatten with
  | [] => 0
  | a :: t => t.foldr min a

/-- Modelled from `skimage.feature.peak_local_max(grid, min_distance=1)`:
cell `(i, j)` is a peak when it is at least `min_distance = 1` away from
every border (`exclude_border` default), equals the maximum of its 3x3
neighborhood (`maximum_filter` with constant 0 padding), and is strictly
greater than the default threshold `image.min()`. -/
def isPeak (g : List (List ℚ)) (i j : ℕ) : Bool :=
  decide (1 ≤ i) && decide (i + 1 < gridHeight g)
    && decide (1 ≤ j) && decide (j + 1 < gridWidth g)
    && decide (cellPad g (i:ℤ) (j:ℤ) = neighborhood3Max g i j)
    && decide (gridMin g < cellPad g (i:ℤ) (j:ℤ))

/-- Modelled from `skimage.feature.peak_local_max(grid, min_distance=1)`:
the list of peak coordinates `(row, col)`.  skimage orders the returned
peaks by intensity descending with a stable sort; on the 0/1 grids this
pipeline feeds it every peak has intensity 1, so the order is row-major,
as here. -/
def peakLocalMax (g : List (List ℚ)) : List (ℕ × ℕ) :=
  ((List.range (gridHeight g)).map (fun i =>
      (List.range (gridWidth g)).filterMap (fun j =>
        if isPeak g i j then some (i, j) else none))).flatten

/-- The candidate-averaging stage of `find_alignment_voltages`
(`src/scan_analysis.py`):

```
sorted_indices = np.argsort(xs)
leftmost_indices = sorted_indices[0:5]
xleftmost_values = np.array([xs[el] for el in leftmost_indices])
yleftmost_values = np.array([ys[el] for el in leftmost_indices])
tip_x = np.mean(xleftmost_values)
tip_y = np.mean(yleftmost_values)
```

Candidates are `(row, col)` pairs; `xs` are the columns, `ys` the rows.
`np.mean` of the empty selection (no candidates) is NaN, embedded as
`none`. -/
def tipIndices (cords : List (ℕ × ℕ)) : Option ℚ × Option ℚ :=
  let xs := cords.map (fun p => p.2)
  let ys := cords.map (fun p => p.1)
  let sortedIndices := npArgsort xs
  let leftmostIndices := sortedIndices.take 5
  let xleftmostValues := leftmostIndices.map (fun el => xs.getD el 0)
  let yleftmostValues := leftmostIndices.map (fun el => ys.getD el 0)
  (npMean (xleftmostValues.map (fun (n : ℕ) => (n : ℚ))),
   npMean (yleftmostValues.map (fun (n : ℕ) => (n : ℚ))))

/-- Index-to-voltage conversion of `find_alignment_voltages`:
`tip_inVolts = np.round(V_min + tip*((V_max-V_min)/size), 2)`. -/
def tipVolts (Vmin Vmax : ℚ) (size : ℕ) (tip : ℚ) : ℚ :=
  npRound2 (Vmin + tip * ((Vmax - Vmin) / (size : ℚ)))

/-- The full alignment locator `find_alignment_voltages` of
`src/scan_analysis.py`: threshold mask, peak detection, averaging of the
five leftmost candidates, and conversion of the averaged indices to
voltages.  The source returns NaN voltages when there are no candidates
(`np.mean` of an empty array); that outcome is embedded as `none`. -/
def findAlignmentVoltages (fit : List (List ℚ)) (Vxmin Vxmax Vymin Vymax const : ℚ) :
    Option (ℚ × ℚ) :=
  let keypoints := keypointsGrid const fit
  let cords := peakLocalMax keypoints
  match tipIndices cords with
  | (some tipX, some tipY) =>
      some (tipVolts Vxmin Vxmax (gridWidth fit) tipX,
            tipVolts Vymin Vymax (gridHeight fit) tipY)
  | _ => none

/-- Claim-side description of the tip estimate (the specification's words):
order the candidates by column index ascending, keep the (at most) five
with the smallest column index, and average their column and row indices
independently. -/
def tipSpec (cords : List (ℕ × ℕ)) : ℚ × ℚ :=
  let chosen := (sortByKey (fun p => p.2) cords).take 5
  ((chosen.map (fun p => ((p.2 : ℕ) : ℚ))).sum / chosen.length,
   (chosen.map (fun p => ((p.1 : ℕ) : ℚ))).sum / chosen.length)

/-- Modelled from the spec: the inverse affine map of claim C8,
`index = (tip_volts - V_min)*grid_size/(V_max - V_min)`.  The source
defines only the forward conversion; the inverse is the claim's own
construction. -/
def voltsToIndex (Vmin Vmax : ℚ) (gridSize : ℕ) (v : ℚ) : ℚ :=
  (v - Vmin) * (gridSize : ℚ) / (Vmax - Vmin)

/-- A 3x3 fitted grid with baseline 5.8 and one in-band cell (5.52) at the
center; concrete input for the locator witnesses. -/
def fitDemo : List (List ℚ) :=
  [[29/5, 29/5, 29/5], [29/5, 138/25, 29/5], [29/5, 29/5, 29/5]]

/-- Python `int()` applied to a float ratio: truncation toward zero. -/
def ratTrunc (q : ℚ) : ℤ := if 0 ≤ q then ⌊q⌋ else ⌈q⌉

/-- The Y-sweep template of `get_voltage_array`
(`src/get_voltage_array.py`): `np.array([i for i in range(Ny+1)],
dtype='uint8')` followed by appending `Ny-i` for `i in range(Ny+1)`.  The
`uint8` dtype truncates the ascending half modulo 256 (numpy < 1.24
wraps; newer numpy raises OverflowError instead, and either way the
sweep breaks for `Ny ≥ 256`); `np.append` promotes to int64, so the
descending half is exact. -/
def yTemplate (Ny : ℕ) : List ℕ :=
  (List.range (Ny + 1)).map (fun i => i % 256)
    ++ (List.range (Ny + 1)).map (fun i => Ny - i)

/-- Shallow embedding of `get_voltage_array` from
`src/get_voltage_array.py`, producing the raster sequence of `(Vx, Vy)`
pairs:

```
Nx = int((Vx_max-Vx_min)/Vx_step)
Ny = int((Vy_max-Vy_min)/Vy_step)
Vx = np.full((Nx+1)*(Ny+1), Vx_min)
...
Vx[i] = Vx_min + Vx_step*np.floor(i/(Ny+1))
Vy[i] = Vy_min + Vy_step*(y_template[int(i%len(y_template))])
```

`np.floor(i/(Ny+1))` on exact float ratios is natural-number division.
`Nx` and `Ny` are signed: when the allocation size `(Nx+1)*(Ny+1)` is
negative, `np.full` raises ValueError; when it is exactly 0 (`Nx = -1`
or `Ny = -1`) the function returns an empty scan; when it is positive
but `y_template` is empty (`Nx ≤ -2` and `Ny ≤ -2`), the first loop
iteration raises ZeroDivisionError at `i % len(y_template)`.  The two
error outcomes are embedded as `none`; on the remaining inputs
`Nx.toNat`/`Ny.toNat` equal the Python `Nx`/`Ny`. -/
def getVoltageArray (Vxmin Vxmax Vymin Vymax Vxstep Vystep : ℚ) :
    Option (List (ℚ × ℚ)) :=
  let Nx : ℤ := ratTrunc ((Vxmax - Vxmin) / Vxstep)
  let Ny : ℤ := ratTrunc ((Vymax - Vymin) / Vystep)
  if (Nx + 1) * (Ny + 1) < 0 then none
  else if (Nx + 1) * (Ny + 1) = 0 then some []
  else if Ny + 1 ≤ 0 then none
  else
    let tmpl := yTemplate Ny.toNat
    some ((List.range ((Nx.toNat + 1) * (Ny.toNat + 1))).map (fun i =>
      (Vxmin + Vxstep * ((i / (Ny.toNat + 1) : ℕ) : ℚ),
       Vymin + Vystep * ((tmpl.getD (i % tmpl.length) 0 : ℕ) : ℚ))))

/-- The `let`-chain of `model`, flattened (definitional equality). -/
theorem model_def (alpha a beta b delta d const X Y : ℝ) :
    model alpha a beta b delta d const X Y
      = const - |(if alpha * X + a < 0 then 0 else alpha * X + a) *
          Real.exp (-(Y - d) ^ 2 / (2 * (beta * X + b) ^ 2))| := rfl

/-- The `let`-chain of `modelCenteredAtD`, flattened (definitional
equality). -/
theorem modelCenteredAtD_def (alpha a beta b delta d const X Y : ℝ) :
    modelCenteredAtD alpha a beta b delta d const X Y
      = const - |(if alpha * X + a < 0 then 0 else alpha * X + a) *
          Real.exp (-(Y - (delta * X + d)) ^ 2 / (2 * (beta * X + b) ^ 2))| := rfl

/-- Claim C1: for every parameter tuple and input pair, `model` returns
`const - |max(0, alpha*Vx + a) * exp(-(Vy - d)^2 / (2*(beta*Vx + b)^2))|`;
the computed `D(Vx) = delta*Vx + d` does not affect the result (the output
is independent of `delta`), and the Gaussian is centered at the fixed
parameter `d`, not at `D(Vx)` (the model disagrees with the `D`-centered
variant at some input). -/
theorem model_matches_spec_ignores_center :
    (∀ alpha a beta b delta d const X Y : ℝ,
        model alpha a beta b delta d const X Y = modelSpec alpha a beta b delta d const X Y)
    ∧ (∀ alpha a beta b delta delta2 d const X Y : ℝ,
        model alpha a beta b delta d const X Y = model alpha a beta b delta2 d const X Y)
    ∧ (∃ alpha a beta b delta d const X Y : ℝ,
        model alpha a beta b delta d const X Y ≠ modelCenteredAtD alpha a beta b delta d const X Y) := by
  refine ⟨?_, ?_, ?_⟩
  · intro alpha a beta b delta d const X Y
    rw [model_def]
    unfold modelSpec
    rcases lt_or_le (alpha * X + a) 0 with h | h
    · rw [if_pos h, (max_eq_left h.le : max 0 (alpha * X + a) = 0)]
    · rw [if_neg (not_lt.mpr h), (max_eq_right h : max 0 (alpha * X + a) = alpha * X + a)]
  · intro alpha a beta b delta delta2 d const X Y
    rfl
  · refine ⟨0, 1, 0, 1, 1, 0, 0, 1, 0, ?_⟩
    have hm : model 0 1 0 1 1 0 0 1 0 = -1 := by
      rw [model_def, if_neg (by norm_num : ¬ ((0:ℝ) * 1 + 1 < 0))]
      norm_num
    have hD : modelCenteredAtD 0 1 0 1 1 0 0 1 0 = -Real.exp (-(1/2)) := by
      rw [modelCenteredAtD_def, if_neg (by norm_num : ¬ ((0:ℝ) * 1 + 1 < 0))]
      have harg : -((0:ℝ) - (1 * 1 + 0)) ^ 2 / (2 * (0 * 1 + 1) ^ 2) = -(1/2) := by norm_num
      rw [harg]
      have hpos : (0:ℝ) < (0 * 1 + 1) * Real.exp (-(1/2)) := by
        have := Real.exp_pos (-(1/2 : ℝ))
        nlinarith
      rw [abs_of_pos hpos]
      ring
    rw [hm, hD]
    intro hcontra
    have hone : Real.exp (-(1/2 : ℝ)) = 1 := by linarith
    rw [Real.exp_eq_one_iff] at hone
    norm_num at hone

/-- Claim C7: whenever the linear amplitude `alpha*Vx + a` is negative, the
clamp zeroes it and the model value equals the baseline `const`, for every
`Vy`. -/
theorem model_const_when_clamped (alpha a beta b delta d const X Y : ℝ)
    (h : alpha * X + a < 0) :
    model alpha a beta b delta d const X Y = const := by
  rw [model_def, if_pos h]
  simp

/-- Witness for C7 at `alpha = 0, a = -1, beta = 0, b = 1, delta = 0, d = 0,
const = 5, Vx = 0, Vy = 0`. -/
theorem model_const_when_clamped_witness :
    ((0:ℝ) * 0 + (-1) < 0) ∧ model 0 (-1) 0 1 0 0 5 0 0 = 5 :=
  ⟨by norm_num, model_const_when_clamped 0 (-1) 0 1 0 0 5 0 0 (by norm_num)⟩

/-- Claim C10: the model never exceeds the baseline `const`: a non-negative
absolute value is subtracted from it.  (The nonzero-width hypothesis of the
claim is kept even though the real-valued embedding does not need it.) -/
theorem model_le_baseline (alpha a beta b delta d const X Y : ℝ)
    (h : beta * X + b ≠ 0) :
    model alpha a beta b delta d const X Y ≤ const := by
  rw [model_def]
  exact sub_le_self _ (abs_nonneg _)

/-- Witness for C10 at `alpha = 1, a = 1, beta = 0, b = 1, delta = 0, d = 0,
const = 5, Vx = 0, Vy = 0`. -/
theorem model_le_baseline_witness :
    ((0:ℝ) * 0 + 1 ≠ 0) ∧ model 1 1 0 1 0 0 5 0 0 ≤ 5 :=
  ⟨by norm_num, model_le_baseline 1 1 0 1 0 0 5 0 0 (by norm_num)⟩

/-- Claim C5: a grid cell is marked (set to 1) in the binary mask exactly
when its fitted value `v` satisfies
`const*(1-H) ≤ v ≤ const*(1-(H-0.01))` with `H = 0.05`, and the mask has
the same shape as the grid (same number of rows, each row the same
length). -/
theorem keypoints_mask_band_iff_shape (const : ℚ) (fit : List (List ℚ)) :
    (keypointsGrid const fit).length = fit.length
    ∧ (∀ i : ℕ, ((keypointsGrid const fit)[i]?).map List.length = (fit[i]?).map List.length)
    ∧ (∀ i j : ℕ, ((keypointsGrid const fit)[i]?.bind fun row => row[j]?)
        = ((fit[i]?.bind fun row => row[j]?).map
            fun v => if const * (1 - 1/20) ≤ v ∧ v ≤ const * (1 - (1/20 - 1/100))
              then (1 : ℚ) else 0)) := by
  have hband1 : const - (1/20) * const = const * (1 - 1/20) := by ring
  have hband2 : const - (1/20 - 1/100) * const = const * (1 - (1/20 - 1/100)) := by ring
  refine ⟨by simp [keypointsGrid], ?_, ?_⟩
  · intro i
    unfold keypointsGrid
    rw [List.getElem?_map]
    cases fit[i]? <;> simp
  · intro i j
    unfold keypointsGrid
    rw [List.getElem?_map]
    cases hrow : fit[i]? with
    | none => simp
    | some row =>
      simp only [Option.map_some', Option.some_bind]
      rw [List.getElem?_map]
      cases hv : row[j]? with
      | none => simp
      | some v =>
        simp only [Option.map_some']
        rw [hband1, hband2]

/-- Claim C2 (the code side of the bug): on a perfectly flat 3x3 grid all
of whose cells equal the baseline `const = 5.8`, the threshold band
matches no cell and peak detection returns no candidates, yet the locator
returns the NaN outcome (`none` in this embedding, from `np.mean` of an
empty array) instead of raising any `NoAlignmentSignal` error — no such
error exists in the source. -/
theorem flat_grid_returns_nan_not_error :
    peakLocalMax (keypointsGrid (29/5) (List.replicate 3 (List.replicate 3 (29/5)))) = []
    ∧ findAlignmentVoltages (List.replicate 3 (List.replicate 3 (29/5))) (-25) 10 0 30 (29/5)
        = none := by
  constructor <;> with_unfolding_all decide

/-- Helper: `npLinspace a b n` is an even mesh from `a` to `b` whenever
`n ≥ 2`. -/
theorem npLinspace_evenMesh (a b : ℚ) (n : ℕ) (hn : 2 ≤ n) :
    EvenMesh a b n (npLinspace a b n) := by
  have hlen : (npLinspace a b n).length = n := by simp [npLinspace]
  have hget : ∀ i, (npLinspace a b n)[i]?
      = if i < n then some (a + i * ((b - a) / ((n - 1 : ℕ) : ℚ))) else none := by
    intro i
    unfold npLinspace
    rw [List.getElem?_map]
    by_cases hi : i < n
    · rw [List.getElem?_range hi, if_pos hi]
      rfl
    · rw [List.getElem?_eq_none (by simpa using not_lt.mp hi), if_neg hi]
      rfl
  refine ⟨hlen, ?_, ?_, hget⟩
  · rw [List.head?_eq_getElem?, hget 0, if_pos (by omega)]
    norm_num
  · rw [List.getLast?_eq_getElem?, hlen, hget (n - 1), if_pos (by omega : n - 1 < n)]
    have hne : ((n - 1 : ℕ) : ℚ) ≠ 0 := Nat.cast_ne_zero.mpr (by omega)
    have hcancel : ((n - 1 : ℕ) : ℚ) * ((b - a) / ((n - 1 : ℕ) : ℚ)) = b - a :=
      mul_div_cancel₀ (b - a) hne
    rw [hcancel]
    rw [show a + (b - a) = b by ring]

/-- Counterexample for claim C3 as stated: at `sample_count = 2` the code
builds axes with `10·⌊√2⌋ = 10` points, not the claimed
`10·⌈√2⌉ = 20` (the source truncates `np.sqrt`, it does not take the
ceiling). -/
theorem grid_size_uses_floor_not_ceil :
    (fitGridXs 2 0 1).length ≠ 10 * specCeilSqrt 2 := by
  have hs : Nat.sqrt 2 = 1 := by
    have h1 : 1 ≤ Nat.sqrt 2 := Nat.le_sqrt.mpr (by norm_num)
    have h2 : Nat.sqrt 2 < 2 := Nat.sqrt_lt.mpr (by norm_num)
    omega
  have hlen : (fitGridXs 2 0 1).length = 10 := by
    simp [fitGridXs, npLinspace, fitGridSize, hs]
  have hceil : specCeilSqrt 2 = 2 := by
    unfold specCeilSqrt
    rw [hs]
    norm_num
  omega

/-- Claim C3, amended: for at least one sample and valid bounds, the fitter
builds its evaluation axes with `n = 10·⌊√(sample_count)⌋` points each
(floor, not the claimed ceiling), evenly spaced over `[Vx_min, Vx_max+1]`
and `[Vy_min, Vy_max+1]`, inclusive at both endpoints, with uniform
spacing. -/
theorem fit_grid_mesh_even (sc : ℕ) (Vxmin Vxmax Vymin Vymax : ℚ)
    (hsc : 1 ≤ sc) (hx : Vxmin < Vxmax) (hy : Vymin < Vymax) :
    EvenMesh Vxmin (Vxmax + 1) (fitGridSize sc) (fitGridXs sc Vxmin Vxmax)
    ∧ EvenMesh Vymin (Vymax + 1) (fitGridSize sc) (fitGridYs sc Vymin Vymax) := by
  have h2 : 2 ≤ fitGridSize sc := by
    have h1 : 1 ≤ Nat.sqrt sc := Nat.le_sqrt.mpr (by omega)
    unfold fitGridSize
    omega
  exact ⟨npLinspace_evenMesh _ _ _ h2, npLinspace_evenMesh _ _ _ h2⟩

/-- Witness for the amended C3 at `sample_count = 1`,
`Vx ∈ [0, 1]`, `Vy ∈ [0, 1]`. -/
theorem fit_grid_mesh_even_witness :
    ((1 : ℕ) ≤ 1 ∧ (0:ℚ) < 1)
    ∧ EvenMesh 0 (1 + 1) (fitGridSize 1) (fitGridXs 1 0 1)
    ∧ EvenMesh 0 (1 + 1) (fitGridSize 1) (fitGridYs 1 0 1) :=
  ⟨⟨le_refl 1, by norm_num⟩,
   fit_grid_mesh_even 1 0 1 0 1 (le_refl 1) (by norm_num) (by norm_num)⟩

/-- Helper: banker's rounding moves a rational by at most 1/2. -/
theorem roundHalfEven_sub_le (x : ℚ) : |(roundHalfEven x : ℚ) - x| ≤ 1/2 := by
  have hfl : ((⌊x⌋ : ℤ) : ℚ) ≤ x := Int.floor_le x
  have hfu : x < ((⌊x⌋ : ℤ) : ℚ) + 1 := Int.lt_floor_add_one x
  unfold roundHalfEven
  split_ifs with h1 h2 h3
  · rw [abs_le]
    constructor <;> linarith
  · push_cast
    rw [abs_le]
    constructor <;> linarith
  · rw [abs_le]
    constructor <;> linarith
  · push_cast
    rw [abs_le]
    constructor <;> linarith

/-- Helper: rounding to 2 decimal digits moves a rational by at most
1/200. -/
theorem npRound2_sub_le (x : ℚ) : |npRound2 x - x| ≤ 1/200 := by
  have h := roundHalfEven_sub_le (x * 100)
  unfold npRound2
  rw [show (roundHalfEven (x * 100) : ℚ) / 100 - x
      = ((roundHalfEven (x * 100) : ℚ) - x * 100) / 100 by ring]
  rw [abs_div, abs_of_pos (by norm_num : (0:ℚ) < 100)]
  linarith

/-- Counterexample for claim C8 as stated: with `V_min = 0`, `V_max = 1`
and `grid_size = 1000` (cells far narrower than the 0.01 V rounding
quantum), index 3 converts to the rounded voltage 0.0, whose inverse
image is index 0 — an error of 3 cells, not within ±1. -/
theorem roundtrip_can_exceed_one_cell :
    ¬ |voltsToIndex 0 1 1000 (tipVolts 0 1 1000 ((3:ℕ) : ℚ)) - ((3:ℕ) : ℚ)| ≤ 1 := by
  with_unfolding_all decide

/-- Claim C8, amended: the voltage round-trip recovers a grid index to
within ±1 cell provided the grid cell width `(V_max - V_min)/grid_size`
is at least the half rounding quantum 0.005 V (equivalently
`grid_size ≤ 200·(V_max - V_min)`); the 2-decimal rounding makes the
unrestricted claim false. -/
theorem index_roundtrip_within_one_cell (Vmin Vmax : ℚ) (gridSize idx : ℕ)
    (hV : Vmin < Vmax) (hidx : idx < gridSize)
    (hcell : (gridSize : ℚ) ≤ 200 * (Vmax - Vmin)) :
    |voltsToIndex Vmin Vmax gridSize (tipVolts Vmin Vmax gridSize (idx : ℚ)) - (idx : ℚ)| ≤ 1 := by
  have hg : (0:ℚ) < (gridSize : ℚ) := by
    have : 0 < gridSize := by omega
    exact_mod_cast this
  have hD : (0:ℚ) < Vmax - Vmin := by linarith
  set e := Vmin + (idx : ℚ) * ((Vmax - Vmin) / (gridSize : ℚ)) with he
  have hr : |npRound2 e - e| ≤ 1/200 := npRound2_sub_le e
  have hkey : (e - Vmin) * (gridSize : ℚ) / (Vmax - Vmin) = (idx : ℚ) := by
    rw [he]
    field_simp
    ring
  have hexpand : voltsToIndex Vmin Vmax gridSize (tipVolts Vmin Vmax gridSize (idx : ℚ)) - (idx : ℚ)
      = (npRound2 e - e) * (gridSize : ℚ) / (Vmax - Vmin) := by
    unfold voltsToIndex tipVolts
    rw [← he, ← hkey]
    ring
  rw [hexpand, abs_div, abs_mul, abs_of_pos hD, abs_of_pos hg]
  rw [div_le_one hD]
  have h1 : |npRound2 e - e| * (gridSize : ℚ) ≤ (1/200) * (gridSize : ℚ) :=
    mul_le_mul_of_nonneg_right hr hg.le
  linarith

/-- Witness for the amended C8 at `V_min = 0, V_max = 1, grid_size = 100,
index = 7`. -/
theorem index_roundtrip_within_one_cell_witness :
    ((0:ℚ) < 1 ∧ (7:ℕ) < 100 ∧ (((100:ℕ)) : ℚ) ≤ 200 * (1 - 0))
    ∧ |voltsToIndex 0 1 100 (tipVolts 0 1 100 ((7:ℕ) : ℚ)) - ((7:ℕ) : ℚ)| ≤ 1 :=
  ⟨⟨by norm_num, by norm_num, by norm_num⟩,
   index_roundtrip_within_one_cell 0 1 100 7 (by norm_num) (by norm_num) (by norm_num)⟩

/-- Helper: `ordInsert` commutes with mapping an embedding `f` when the
key is transported along `f`. -/
theorem ordInsert_map {α β : Type} (key : α → ℕ) (f : β → α) (x : β) (L : List β) :
    ordInsert key (f x) (L.map f) = (ordInsert (fun y => key (f y)) x L).map f := by
  induction L with
  | nil => rfl
  | cons y t ih =>
    simp only [List.map_cons, ordInsert]
    split_ifs with h
    · simp
    · simp [ih]

/-- Helper: `sortByKey` commutes with mapping an embedding `f` when the
key is transported along `f`. -/
theorem sortByKey_map {α β : Type} (key : α → ℕ) (f : β → α) (M : List β) :
    sortByKey key (M.map f) = (sortByKey (fun y => key (f y)) M).map f := by
  induction M with
  | nil => rfl
  | cons y t ih =>
    simp only [List.map_cons, sortByKey]
    rw [ih, ordInsert_map]

/-- Helper: `ordInsert` grows the length by one. -/
theorem ordInsert_length {α : Type} (key : α → ℕ) (x : α) (L : List α) :
    (ordInsert key x L).length = L.length + 1 := by
  induction L with
  | nil => rfl
  | cons y t ih =>
    simp only [ordInsert]
    split_ifs with h
    · simp
    · simp [ih]

/-- Helper: `sortByKey` preserves the length. -/
theorem sortByKey_length {α : Type} (key : α → ℕ) (L : List α) :
    (sortByKey key L).length = L.length := by
  induction L with
  | nil => rfl
  | cons y t ih =>
    simp only [sortByKey]
    rw [ordInsert_length, ih, List.length_cons]

/-- Helper: reading every index of a list back through `getD` recovers the
list. -/
theorem range_map_getD {α : Type} (ps : List α) (d : α) :
    (List.range ps.length).map (fun i => ps.getD i d) = ps := by
  induction ps with
  | nil => rfl
  | cons x t ih =>
    rw [List.length_cons, List.range_succ_eq_map]
    simp only [List.map_cons, List.map_map]
    congr 1

/-- Helper: `getD` on a mapped list applies the function to `getD` of the
original, when the default is the image of a default. -/
theorem getD_map_key {α β : Type} (key : α → β) (d : α) (ps : List α) (i : ℕ) :
    (ps.map key).getD i (key d) = key (ps.getD i d) := by
  induction ps generalizing i with
  | nil => simp [List.getD]
  | cons x t ih =>
    cases i with
    | zero => rfl
    | succ n => simpa [List.getD_cons_succ] using ih n

/-- Helper (the stable-argsort bridge): indexing a list `ps` through the
argsort of its key column produces exactly the stable sort of `ps` by that
key. -/
theorem argsort_getD {α : Type} (key : α → ℕ) (d : α) (hd : key d = 0) (ps : List α) :
    (npArgsort (ps.map key)).map (fun i => ps.getD i d) = sortByKey key ps := by
  unfold npArgsort
  rw [List.length_map]
  have h1 : (fun i => (ps.map key).getD i 0) = fun i => key (ps.getD i d) := by
    funext i
    rw [← hd, getD_map_key]
  rw [h1]
  calc (sortByKey (fun i => key (ps.getD i d)) (List.range ps.length)).map (fun i => ps.getD i d)
      = sortByKey key ((List.range ps.length).map (fun i => ps.getD i d)) :=
        (sortByKey_map key (fun i => ps.getD i d) (List.range ps.length)).symm
    _ = sortByKey key ps := by rw [range_map_getD]

/-- The `let`-chain of `tipIndices`, flattened (definitional equality). -/
theorem tipIndices_def (cords : List (ℕ × ℕ)) :
    tipIndices cords
      = (npMean ((((npArgsort (cords.map (fun p => p.2))).take 5).map
            (fun el => (cords.map (fun p => p.2)).getD el 0)).map (fun (n : ℕ) => (n : ℚ))),
         npMean ((((npArgsort (cords.map (fun p => p.2))).take 5).map
            (fun el => (cords.map (fun p => p.1)).getD el 0)).map (fun (n : ℕ) => (n : ℚ)))) := rfl

/-- Helper: `np.mean` of a non-empty list is the sum divided by the
length. -/
theorem npMean_ne_nil (l : List ℚ) (h : l ≠ []) :
    npMean l = some (l.sum / l.length) := by
  cases l with
  | nil => exact absurd rfl h
  | cons a t => rfl

/-- Helper: on a non-empty candidate list, the source's argsort-take-index
averaging equals the claim-side description `tipSpec`. -/
theorem tipIndices_eq_tipSpec (cords : List (ℕ × ℕ)) (h : cords ≠ []) :
    tipIndices cords = (some (tipSpec cords).1, some (tipSpec cords).2) := by
  have hxlist : ((npArgsort (cords.map (fun p => p.2))).take 5).map
        (fun el => (cords.map (fun p => p.2)).getD el 0)
      = ((sortByKey (fun p => p.2) cords).take 5).map (fun p => p.2) := by
    have hpt : (fun el => (cords.map (fun p : ℕ × ℕ => p.2)).getD el 0)
        = fun el => (cords.getD el (0, 0)).2 := by
      funext el
      exact getD_map_key (fun p : ℕ × ℕ => p.2) (0, 0) cords el
    rw [hpt]
    rw [show (fun el => (cords.getD el (0, 0)).2)
        = (fun p : ℕ × ℕ => p.2) ∘ (fun el => cords.getD el (0, 0)) from rfl]
    rw [← List.map_map, List.map_take, argsort_getD (fun p : ℕ × ℕ => p.2) (0, 0) rfl cords]
  have hylist : ((npArgsort (cords.map (fun p => p.2))).take 5).map
        (fun el => (cords.map (fun p => p.1)).getD el 0)
      = ((sortByKey (fun p => p.2) cords).take 5).map (fun p => p.1) := by
    have hpt : (fun el => (cords.map (fun p : ℕ × ℕ => p.1)).getD el 0)
        = fun el => (cords.getD el (0, 0)).1 := by
      funext el
      exact getD_map_key (fun p : ℕ × ℕ => p.1) (0, 0) cords el
    rw [hpt]
    rw [show (fun el => (cords.getD el (0, 0)).1)
        = (fun p : ℕ × ℕ => p.1) ∘ (fun el => cords.getD el (0, 0)) from rfl]
    rw [← List.map_map, List.map_take, argsort_getD (fun p : ℕ × ℕ => p.2) (0, 0) rfl cords]
  have hchosen : 0 < ((sortByKey (fun p : ℕ × ℕ => p.2) cords).take 5).length := by
    rw [List.length_take, sortByKey_length]
    exact lt_min (by norm_num) (List.length_pos.mpr h)
  have hchosen_ne : (sortByKey (fun p : ℕ × ℕ => p.2) cords).take 5 ≠ [] :=
    List.length_pos.mp hchosen
  rw [tipIndices_def, hxlist, hylist]
  rw [npMean_ne_nil _ (by simpa [List.map_eq_nil_iff] using hchosen_ne)]
  rw [npMean_ne_nil _ (by simpa [List.map_eq_nil_iff] using hchosen_ne)]
  rw [List.map_map, List.map_map, List.length_map, List.length_map]
  rfl

/-- Claim C6: for every fitted grid whose candidate set is non-empty, the
tip index estimate is the independent row/column arithmetic mean of the at
most five candidates of smallest column index (taken in ascending column
order), and the returned voltages are
`np.round(V_min + tip*(V_max - V_min)/grid_size, 2)` with `grid_size` the
column count for X and the row count for Y. -/
theorem alignment_tip_mean_of_leftmost (fit : List (List ℚ))
    (Vxmin Vxmax Vymin Vymax const : ℚ)
    (h : peakLocalMax (keypointsGrid const fit) ≠ []) :
    tipIndices (peakLocalMax (keypointsGrid const fit))
        = (some (tipSpec (peakLocalMax (keypointsGrid const fit))).1,
           some (tipSpec (peakLocalMax (keypointsGrid const fit))).2)
    ∧ findAlignmentVoltages fit Vxmin Vxmax Vymin Vymax const
        = some (npRound2 (Vxmin + (tipSpec (peakLocalMax (keypointsGrid const fit))).1
                  * ((Vxmax - Vxmin) / (gridWidth fit : ℚ))),
                npRound2 (Vymin + (tipSpec (peakLocalMax (keypointsGrid const fit))).2
                  * ((Vymax - Vymin) / (gridHeight fit : ℚ)))) := by
  have h2 := tipIndices_eq_tipSpec (peakLocalMax (keypointsGrid const fit)) h
  refine ⟨h2, ?_⟩
  calc findAlignmentVoltages fit Vxmin Vxmax Vymin Vymax const
      = (match tipIndices (peakLocalMax (keypointsGrid const fit)) with
          | (some tipX, some tipY) =>
              some (tipVolts Vxmin Vxmax (gridWidth fit) tipX,
                    tipVolts Vymin Vymax (gridHeight fit) tipY)
          | _ => none) := rfl
    _ = some (npRound2 (Vxmin + (tipSpec (peakLocalMax (keypointsGrid const fit))).1
                  * ((Vxmax - Vxmin) / (gridWidth fit : ℚ))),
              npRound2 (Vymin + (tipSpec (peakLocalMax (keypointsGrid const fit))).2
                  * ((Vymax - Vymin) / (gridHeight fit : ℚ)))) := by
        rw [h2]
        rfl

/-- Witness for C6 on the concrete grid `fitDemo` (one in-band cell, one
candidate) with bounds `Vx ∈ [-25, 10]`, `Vy ∈ [0, 30]` and baseline
`const = 5.8`. -/
theorem alignment_tip_mean_of_leftmost_witness :
    peakLocalMax (keypointsGrid (29/5) fitDemo) ≠ []
    ∧ (tipIndices (peakLocalMax (keypointsGrid (29/5) fitDemo))
        = (some (tipSpec (peakLocalMax (keypointsGrid (29/5) fitDemo))).1,
           some (tipSpec (peakLocalMax (keypointsGrid (29/5) fitDemo))).2)
      ∧ findAlignmentVoltages fitDemo (-25) 10 0 30 (29/5)
        = some (npRound2 ((-25) + (tipSpec (peakLocalMax (keypointsGrid (29/5) fitDemo))).1
                  * ((10 - (-25)) / (gridWidth fitDemo : ℚ))),
                npRound2 (0 + (tipSpec (peakLocalMax (keypointsGrid (29/5) fitDemo))).2
                  * ((30 - 0) / (gridHeight fitDemo : ℚ))))) :=
  ⟨by with_unfolding_all decide,
   alignment_tip_mean_of_leftmost fitDemo (-25) 10 0 30 (29/5)
     (by with_unfolding_all decide)⟩

/-- Helper: `getD` on a mapped range evaluates the function when in
bounds and yields the default otherwise. -/
theorem getD_map_range {α : Type} (f : ℕ → α) (n i : ℕ) (d : α) :
    ((List.range n).map f).getD i d = if i < n then f i else d := by
  rw [List.getD_eq_getElem?_getD, List.getElem?_map]
  by_cases hi : i < n
  · rw [List.getElem?_range hi, if_pos hi]
    rfl
  · rw [List.getElem?_eq_none (by simpa using not_lt.mp hi), if_neg hi]
    rfl

/-- Helper: the Y template has `2*(Ny+1)` entries. -/
theorem yTemplate_length (Ny : ℕ) : (yTemplate Ny).length = 2 * (Ny + 1) := by
  simp [yTemplate]
  omega

/-- Helper: the ascending half of the Y template holds `j % 256` (the
`uint8` truncation) at position `j`. -/
theorem yTemplate_getD_lo (Ny j : ℕ) (hj : j < Ny + 1) :
    (yTemplate Ny).getD j 0 = j % 256 := by
  unfold yTemplate
  rw [List.getD_append _ _ _ _ (by simpa using hj)]
  rw [getD_map_range, if_pos hj]

/-- Helper: the descending half of the Y template holds `Ny - j` at
position `(Ny+1) + j`. -/
theorem yTemplate_getD_hi (Ny j : ℕ) (hj : j < Ny + 1) :
    (yTemplate Ny).getD ((Ny + 1) + j) 0 = Ny - j := by
  unfold yTemplate
  rw [List.getD_append_right _ _ _ _ (by simp)]
  simp only [List.length_map, List.length_range]
  rw [show (Ny + 1) + j - (Ny + 1) = j by omega]
  rw [getD_map_range, if_pos hj]

/-- Helper: when `Nx` and `Ny` are non-negative (the scan range is not
inverted), the raster generator succeeds and its body is the explicit
range map. -/
theorem getVoltageArray_pos (Vxmin Vxmax Vymin Vymax Vxstep Vystep : ℚ)
    (hx : 0 ≤ ratTrunc ((Vxmax - Vxmin) / Vxstep))
    (hy : 0 ≤ ratTrunc ((Vymax - Vymin) / Vystep)) :
    getVoltageArray Vxmin Vxmax Vymin Vymax Vxstep Vystep
      = some ((List.range (((ratTrunc ((Vxmax - Vxmin) / Vxstep)).toNat + 1)
            * ((ratTrunc ((Vymax - Vymin) / Vystep)).toNat + 1))).map (fun i =>
          (Vxmin + Vxstep * ((i / ((ratTrunc ((Vymax - Vymin) / Vystep)).toNat + 1) : ℕ) : ℚ),
           Vymin + Vystep
             * (((yTemplate ((ratTrunc ((Vymax - Vymin) / Vystep)).toNat)).getD
                  (i % (yTemplate ((ratTrunc ((Vymax - Vymin) / Vystep)).toNat)).length) 0
                : ℕ) : ℚ)))) := by
  have hp : 0 < (ratTrunc ((Vxmax - Vxmin) / Vxstep) + 1)
      * (ratTrunc ((Vymax - Vymin) / Vystep) + 1) :=
    mul_pos (by omega) (by omega)
  simp only [getVoltageArray]
  rw [if_neg (not_lt.mpr hp.le), if_neg hp.ne', if_neg (by omega)]

set_option maxRecDepth 10000 in
/-- Counterexample for claim C9 as stated: with `Vy` spanning `[0, 256]`
at step 1 (`Ny = 256`), the `uint8` template wraps and the first column's
Vy values are `0, 1, ..., 255, 0` — sample 256 carries `Vy = 0`, not the
ascending value `Vy_min + Ny*Vy_step = 256` the boustrophedon ordering
requires (sample 255 carries 255, so the column is not ascending). -/
theorem raster_uint8_wraparound :
    getVoltageArray 0 0 0 256 1 1 ≠ none
    ∧ (((getVoltageArray 0 0 0 256 1 1).getD []).getD 256 (0, 0)).2 = 0
    ∧ (((getVoltageArray 0 0 0 256 1 1).getD []).getD 255 (0, 0)).2 = 255 := by
  refine ⟨?_, ?_, ?_⟩ <;> with_unfolding_all decide

/-- Claim C9, amended: for positive steps, a non-inverted scan range
(`Vx_min ≤ Vx_max`, `Vy_min ≤ Vy_max` — on an inverted range the source
returns an empty array or raises from a negative `np.full` size) and
`Ny ≤ 255` (so the `uint8` template does not wrap), the raster generator
succeeds with `(Nx+1)*(Ny+1)` samples and sample `k*(Ny+1)+j` (column
`k`, position `j`) is `(Vx_min + k*Vx_step, Vy_min + j*Vy_step)` in even
columns and `(Vx_min + k*Vx_step, Vy_min + (Ny-j)*Vy_step)` in odd
columns: Vx is constant within a column and increases by `Vx_step`
between columns, and the Vy sweep alternates between ascending (up to
`Vy_min + Ny*Vy_step`) and descending. -/
theorem raster_boustrophedon (Vxmin Vxmax Vymin Vymax Vxstep Vystep : ℚ)
    (hxs : 0 < Vxstep) (hys : 0 < Vystep)
    (hxr : Vxmin ≤ Vxmax) (hyr : Vymin ≤ Vymax)
    (hNy : (ratTrunc ((Vymax - Vymin) / Vystep)).toNat ≤ 255) :
    ∃ arr : List (ℚ × ℚ),
      getVoltageArray Vxmin Vxmax Vymin Vymax Vxstep Vystep = some arr
      ∧ arr.length
          = ((ratTrunc ((Vxmax - Vxmin) / Vxstep)).toNat + 1)
            * ((ratTrunc ((Vymax - Vymin) / Vystep)).toNat + 1)
      ∧ ∀ k j : ℕ, k ≤ (ratTrunc ((Vxmax - Vxmin) / Vxstep)).toNat →
          j ≤ (ratTrunc ((Vymax - Vymin) / Vystep)).toNat →
          arr.getD
              (k * ((ratTrunc ((Vymax - Vymin) / Vystep)).toNat + 1) + j) (0, 0)
            = (Vxmin + Vxstep * (k : ℚ),
               if k % 2 = 0 then Vymin + Vystep * (j : ℚ)
               else Vymin + Vystep
                 * ((((ratTrunc ((Vymax - Vymin) / Vystep)).toNat - j : ℕ)) : ℚ)) := by
  have hqx : (0:ℚ) ≤ (Vxmax - Vxmin) / Vxstep := div_nonneg (by linarith) hxs.le
  have hqy : (0:ℚ) ≤ (Vymax - Vymin) / Vystep := div_nonneg (by linarith) hys.le
  have hfx : 0 ≤ ratTrunc ((Vxmax - Vxmin) / Vxstep) := by
    unfold ratTrunc
    rw [if_pos hqx]
    exact Int.floor_nonneg.mpr hqx
  have hfy : 0 ≤ ratTrunc ((Vymax - Vymin) / Vystep) := by
    unfold ratTrunc
    rw [if_pos hqy]
    exact Int.floor_nonneg.mpr hqy
  refine ⟨_, getVoltageArray_pos Vxmin Vxmax Vymin Vymax Vxstep Vystep hfx hfy, ?_, ?_⟩
  · simp
  · set Nx := (ratTrunc ((Vxmax - Vxmin) / Vxstep)).toNat with hNx
    set Ny := (ratTrunc ((Vymax - Vymin) / Vystep)).toNat with hNydef
    intro k j hk hj
    have hidx : k * (Ny + 1) + j < (Nx + 1) * (Ny + 1) := by
      have h1 : k * (Ny + 1) ≤ Nx * (Ny + 1) := Nat.mul_le_mul_right _ hk
      have h2 : (Nx + 1) * (Ny + 1) = Nx * (Ny + 1) + (Ny + 1) := by ring
      omega
    rw [getD_map_range, if_pos hidx]
    have hdiv : (k * (Ny + 1) + j) / (Ny + 1) = k := by
      rw [show k * (Ny + 1) + j = j + (Ny + 1) * k by ring]
      rw [Nat.add_mul_div_left _ _ (by omega : 0 < Ny + 1), Nat.div_eq_of_lt (by omega)]
      omega
    have hmod : (k * (Ny + 1) + j) % (2 * (Ny + 1)) = (k % 2) * (Ny + 1) + j := by
      have hdm : 2 * (k / 2) + k % 2 = k := Nat.div_add_mod k 2
      rw [show k * (Ny + 1) + j = (2 * (Ny + 1)) * (k / 2) + ((k % 2) * (Ny + 1) + j) by
        conv_lhs => rw [← hdm]
        ring]
      rw [Nat.mul_add_mod]
      have hklt : k % 2 ≤ 1 := by omega
      have hb : (k % 2) * (Ny + 1) ≤ 1 * (Ny + 1) := Nat.mul_le_mul_right _ hklt
      exact Nat.mod_eq_of_lt (by omega)
    rw [hdiv, yTemplate_length, hmod]
    rcases Nat.mod_two_eq_zero_or_one k with hk2 | hk2
    · rw [hk2, if_pos rfl]
      rw [show 0 * (Ny + 1) + j = j by omega]
      rw [yTemplate_getD_lo Ny j (by omega)]
      rw [Nat.mod_eq_of_lt (by omega : j < 256)]
    · rw [hk2, if_neg (by omega)]
      rw [show 1 * (Ny + 1) + j = (Ny + 1) + j by omega]
      rw [yTemplate_getD_hi Ny j (by omega)]

/-- Witness for the amended C9 at `Vx ∈ [0, 1]`, `Vy ∈ [0, 1]`, both steps
1 (`Nx = Ny = 1`). -/
theorem raster_boustrophedon_witness :
    ((0:ℚ) < 1 ∧ (0:ℚ) ≤ 1 ∧ (ratTrunc ((1 - 0) / 1)).toNat ≤ 255)
    ∧ ∃ arr : List (ℚ × ℚ),
        getVoltageArray 0 1 0 1 1 1 = some arr
        ∧ arr.length
            = ((ratTrunc ((1 - 0) / 1)).toNat + 1) * ((ratTrunc ((1 - 0) / 1)).toNat + 1)
        ∧ ∀ k j : ℕ, k ≤ (ratTrunc ((1 - 0) / 1)).toNat →
            j ≤ (ratTrunc ((1 - 0) / 1)).toNat →
            arr.getD (k * ((ratTrunc ((1 - 0) / 1)).toNat + 1) + j) (0, 0)
              = (0 + 1 * (k : ℚ),
                 if k % 2 = 0 then 0 + 1 * (j : ℚ)
                 else 0 + 1 * ((((ratTrunc ((1 - 0) / 1)).toNat - j : ℕ)) : ℚ)) :=
  ⟨⟨by norm_num, by norm_num, by with_unfolding_all decide⟩,
   raster_boustrophedon 0 1 0 1 1 1 (by norm_num) (by norm_num) (by norm_num)
     (by norm_num) (by with_unfolding_all decide)⟩

end BeamAlignment
